import Mathlib

/-!
Verification of the chunked AI-request orchestration layer of the
ai-investment-analyst browser extension.

The definitions below are a shallow embedding of
src/features/analysis/services/chunking-service.ts and the relevant parts of
src/features/analysis/services/chrome-ai-service-simple.ts.  JavaScript
strings are modelled as `List Char`; `undefined`-able values as `Option`;
promise rejection (a thrown `Error`) as the `Except.error` constructor
carrying the error's message; fulfilled promises as `Except.ok`.
-/

set_option maxRecDepth 4096

/-- Convert a Lean string literal to the `List Char` model of a JS string. -/
def str (s : String) : List Char := s.data

/-- Model of `ChunkingOptions` / a capability profile
(chunking-service.ts lines 6-10): `maxTokens`, `chunkSize` (characters per
chunk) and `overlapSize` (characters overlapped between chunks). -/
structure ChunkingOptions where
  maxTokens : Nat
  chunkSize : Nat
  overlapSize : Nat
deriving DecidableEq

/-- The closed set of capability keys of the registry
(`APIKey = keyof typeof API_TOKEN_LIMITS`). -/
inductive APIKey where
  | summarizer
  | writer
  | languageModel
  | proofreader
  | translator
  | rewriter
deriving DecidableEq

/-- Model of the `API_TOKEN_LIMITS` registry table
(chunking-service.ts lines 20-27), one profile per capability key. -/
def API_TOKEN_LIMITS : APIKey → ChunkingOptions
  | .summarizer => ⟨2500, 8000, 400⟩
  | .writer => ⟨9000, 30000, 1000⟩
  | .languageModel => ⟨9216, 30000, 1000⟩
  | .proofreader => ⟨9000, 30000, 1000⟩
  | .translator => ⟨9000, 30000, 1000⟩
  | .rewriter => ⟨9000, 30000, 1000⟩

/-- `needsChunking` generalized over an arbitrary profile:
`content.length > options.chunkSize` (chunking-service.ts lines 35-38). -/
def needsChunkingWith (content : List Char) (o : ChunkingOptions) : Bool :=
  decide (content.length > o.chunkSize)

/-- Model of `ChunkingService.needsChunking(content, apiKey)`
(chunking-service.ts lines 35-38). -/
def needsChunking (content : List Char) (k : APIKey) : Bool :=
  needsChunkingWith content (API_TOKEN_LIMITS k)

/-- The cursor positions visited by the `for` loop of `createChunks`
(chunking-service.ts line 54): starting from `i`, record `i` and advance by
`step` while `i < len`.  The loop of the source has no fuel: the extra
`fuel` argument makes the definition total in Lean and lets us state both
that `fuel = len` suffices when `step > 0` and that for `step = 0` (the
`chunkSize - overlapSize <= 0` configuration) no amount of fuel reaches the
exit condition, i.e. the source loop never terminates. -/
def chunkStartsFuel (step len : Nat) : Nat → Nat → List Nat
  | _, 0 => []
  | i, fuel + 1 => if i < len then i :: chunkStartsFuel step len (i + step) fuel else []

/-- The cursor positions of the `createChunks` loop; fuel `len` is enough
for every positive step. -/
def chunkStarts (step len : Nat) : List Nat :=
  chunkStartsFuel step len 0 len

/-- Model of `chunk.trim().length > 0` (chunking-service.ts line 56): the
trimmed content of a chunk is nonempty iff some character is not
whitespace. -/
def trimNonempty (l : List Char) : Bool :=
  l.any (fun c => !c.isWhitespace)

/-- `createChunks` generalized over an arbitrary profile
(chunking-service.ts lines 43-68): slice `[i, i + chunkSize)` at every
cursor position, keep the slices whose trimmed content is nonempty. -/
def createChunksWith (o : ChunkingOptions) (content : List Char) : List (List Char) :=
  ((chunkStarts (o.chunkSize - o.overlapSize) content.length).map
      (fun i => (content.drop i).take o.chunkSize)).filter trimNonempty

/-- Model of `ChunkingService.createChunks(content, apiKey)`
(chunking-service.ts lines 43-68). -/
def createChunks (content : List Char) (k : APIKey) : List (List Char) :=
  createChunksWith (API_TOKEN_LIMITS k) content

/-- The cursor positions whose window survives the nonempty-trim filter;
`createChunksWith` is the windows of exactly these positions. -/
def keptStarts (o : ChunkingOptions) (content : List Char) : List Nat :=
  (chunkStarts (o.chunkSize - o.overlapSize) content.length).filter
    (fun i => trimNonempty ((content.drop i).take o.chunkSize))

/-- Model of the `{ success, data?, error? }` record returned by a worker
(`apiFunction`) call (chunking-service.ts lines 76-79). -/
structure ApiResult where
  success : Bool
  data : Option (List Char) := none
  error : Option (List Char) := none
deriving DecidableEq

/-- Model of `ChunkingResult` (chunking-service.ts lines 12-16). -/
structure ChunkingResult where
  success : Bool
  data : Option (List Char) := none
  error : Option (List Char) := none
deriving DecidableEq

/-- A worker (`apiFunction`): takes a chunk, either resolves to an
`ApiResult` or rejects with an error message. -/
abbrev Worker := List Char → Except (List Char) ApiResult

/-- JS truthiness of `chunkResult.data` (chunking-service.ts line 110):
`undefined` and the empty string are falsy. -/
def dataTruthy : Option (List Char) → Bool
  | none => false
  | some s => !s.isEmpty

/-- JS `result.error || 'API call failed'` (chunking-service.ts line 88):
`undefined` and the empty string fall back to the default. -/
def jsOrDefault (e : Option (List Char)) (dflt : List Char) : List Char :=
  match e with
  | none => dflt
  | some s => if s.isEmpty then dflt else s

/-- Model of `results.join('\n\n')` (chunking-service.ts line 127):
concatenation with the separator between consecutive elements. -/
def joinSep (sep : List Char) : List (List Char) → List Char
  | [] => []
  | [x] => x
  | x :: y :: xs => x ++ sep ++ joinSep sep (y :: xs)

/-- The per-chunk loop of `processWithChunking`
(chunking-service.ts lines 105-117).  Returns the collected successful
outputs, the trace of chunks the worker was invoked on, and the message of
the first rejection if one occurred.  A rejected worker call is NOT caught
per chunk in the source: it aborts the loop (the rejection propagates to
the outer `try`/`catch`), so nothing after it is invoked.  A fulfilled
result is collected only when `chunkResult.success && chunkResult.data`
(line 110); otherwise the chunk is skipped. -/
def processChunksLoop (f : Worker) :
    List (List Char) → List (List Char) × List (List Char) × Option (List Char)
  | [] => ([], [], none)
  | c :: cs =>
    match f c with
    | .error e => ([], [c], some e)
    | .ok r =>
      match processChunksLoop f cs with
      | (rest, trace, thrown) =>
        ((if r.success && dataTruthy r.data then r.data.getD [] :: rest else rest),
         c :: trace, thrown)

/-- The outputs collected by the per-chunk loop. -/
def collectedOutputs (f : Worker) (chunks : List (List Char)) : List (List Char) :=
  (processChunksLoop f chunks).1

/-- The phase of `processWithChunking` after the per-chunk loop
(chunking-service.ts lines 118-143): a rejection that escaped the loop is
caught by the outer handler (lines 145-150) and becomes a failure result;
zero collected outputs become the total-failure result (lines 120-122);
otherwise the outputs are joined with `'\n\n'`, and when the joined result
still needs chunking the worker is invoked once more on it — a fulfilled
final call yields success with its data, a returned failure degrades to
success with the joined result (lines 124-141), and a rejected final call
falls to the outer catch. -/
def combinePhase (k : APIKey) (f : Worker)
    (loopOut : List (List Char) × List (List Char) × Option (List Char)) :
    ChunkingResult × List (List Char) :=
  match loopOut with
  | (_, trace, some e) => ({ success := false, error := some e }, trace)
  | (results, trace, none) =>
    if results.length = 0 then
      ({ success := false, error := some (str "All chunks failed to process") }, trace)
    else
      let combinedResult := joinSep (str "\n\n") results
      if needsChunking combinedResult k then
        match f combinedResult with
        | .error e => ({ success := false, error := some e }, trace ++ [combinedResult])
        | .ok finalResult =>
          if finalResult.success then
            ({ success := true, data := finalResult.data }, trace ++ [combinedResult])
          else
            ({ success := true, data := some combinedResult }, trace ++ [combinedResult])
      else
        ({ success := true, data := some combinedResult }, trace)

/-- Model of `ChunkingService.processWithChunking(content, apiKey,
apiFunction)` (chunking-service.ts lines 73-151), instrumented with the
trace of inputs the worker is invoked on (second component).  Small content
(lines 81-90) is passed to the worker once, unmodified, and the worker's
result is returned directly; otherwise the chunked path runs. -/
def processWithChunkingT (content : List Char) (k : APIKey) (f : Worker) :
    ChunkingResult × List (List Char) :=
  if needsChunking content k = false then
    match f content with
    | .error e => ({ success := false, error := some e }, [content])
    | .ok result =>
      if result.success then
        ({ success := true, data := result.data }, [content])
      else
        ({ success := false,
           error := some (jsOrDefault result.error (str "API call failed")) }, [content])
  else
    combinePhase k f (processChunksLoop f (createChunks content k))

/-- The result of `processWithChunking`. -/
def processWithChunking (content : List Char) (k : APIKey) (f : Worker) : ChunkingResult :=
  (processWithChunkingT content k f).1

/-- The inputs the worker is invoked on during `processWithChunking`, in
order. -/
def processWithChunkingCalls (content : List Char) (k : APIKey) (f : Worker) :
    List (List Char) :=
  (processWithChunkingT content k f).2

/-- Outcome of the availability preamble of a capability adapter: either an
early failure result with an error code and message, or proceeding to the
model call (`ChunkingService.processWithChunking` with the session-creating
worker). -/
inductive AdapterStep where
  | fail (code msg : List Char)
  | callModel
deriving DecidableEq

/-- Model of the availability preamble shared by the capability adapters
`proofreadText` (chrome-ai-service-simple.ts lines 804-825), `translateText`
(lines 886-907) and `rewriteText` (lines 969-990): if `window` is undefined
fail with `SSR_ERROR`; if the capability object is missing fail with
`API_UNAVAILABLE`; then re-check `availability()` and, whenever the reported
status differs from `'available'`, fail with `API_NOT_READY` without
attempting the model call; only a status equal to `'available'` proceeds to
the model call. -/
def adapterPreamble (apiLabel : List Char) (windowDefined apiPresent : Bool)
    (availability : List Char) : AdapterStep :=
  if windowDefined = false then
    .fail (str "SSR_ERROR") (str "Cannot access Chrome AI APIs on server side")
  else if apiPresent = false then
    .fail (str "API_UNAVAILABLE") (str "Chrome AI " ++ apiLabel ++ str " is not available")
  else if availability ≠ str "available" then
    .fail (str "API_NOT_READY")
      (apiLabel ++ str " is " ++ availability ++ str ". Please wait for model to be ready.")
  else .callModel

/-- Model of the availability preamble of the other two capability
adapters, `summarizeText` (chrome-ai-service-simple.ts lines 558-597) and
`generateText` (lines 664-743): if `window` is undefined fail with
`SSR_ERROR`; if the capability object is missing fail with
`API_UNAVAILABLE`; then re-check `availability()` but use the reported
status only for logging (and, for the Writer, to attach a download-progress
monitor to the creation options) — every reported status, `'available'` or
not, proceeds to the model call; no status produces an error return. -/
def attemptAnywayPreamble (apiLabel : List Char) (windowDefined apiPresent : Bool)
    (availability : List Char) : AdapterStep :=
  if windowDefined = false then
    .fail (str "SSR_ERROR") (str "Cannot access Chrome AI APIs on server side")
  else if apiPresent = false then
    .fail (str "API_UNAVAILABLE") (str "Chrome AI " ++ apiLabel ++ str " is not available")
  else
    match availability with
    | _ => .callModel

/-- The five values of the `AvailabilityStatus` enum
(the return type annotation of `checkApiAvailability`,
chrome-ai-service-simple.ts line 254). -/
def fiveStatuses : List (List Char) :=
  [str "available", str "downloadable", str "downloading",
   str "unavailable", str "unsupported"]

/-- Model of `ChromeAIService.checkApiAvailability(apiName)`
(chrome-ai-service-simple.ts lines 254-276): if the capability object or its
`availability` method is missing, return `'unavailable'`; if the host's
`availability()` call rejects, the `catch` returns `'unavailable'`;
otherwise the host's string is returned as-is — the `as` cast of the source
is a compile-time assertion erased at runtime and performs no validation. -/
def checkApiAvailability (apiPresent hasMethod : Bool)
    (hostResponse : Except (List Char) (List Char)) : List Char :=
  if !(apiPresent && hasMethod) then str "unavailable"
  else
    match hostResponse with
    | .ok s => s
    | .error _ => str "unavailable"

/-- The host environment visible to `downloadSpecificAPI`:
whether `window` is defined, whether the capability object with a `create`
function exists, whether it has an `availability` method, what
`availability()` resolves or rejects to, whether
`navigator.userActivation.isActive` holds, and whether `create()` resolves
or rejects. -/
structure DownloadHost where
  windowDefined : Bool
  apiPresent : Bool
  hasAvailability : Bool
  availabilityResult : Except (List Char) (List Char)
  userActive : Bool
  createResult : Except (List Char) Unit

/-- The result of `downloadSpecificAPI`, a `ChromeAIResult<{status}>`:
success with a status message, or failure with an error code and message. -/
structure DownloadResult where
  success : Bool
  code : Option (List Char) := none
  message : Option (List Char) := none
  statusData : Option (List Char) := none
deriving DecidableEq

/-- Model of `ChromeAIService.downloadSpecificAPI(apiName)`
(chrome-ai-service-simple.ts lines 281-379).  Order of the source checks:
`window` undefined → `SSR_ERROR`; capability object or `create` missing →
`API_UNAVAILABLE`; availability queried (treated as `'unavailable'` when the
method is missing; a rejection falls to the `catch` → `DOWNLOAD_ERROR`);
status `'available'` → success no-op; status `'unavailable'` → failure
`API_UNAVAILABLE`; missing user activation → failure
`USER_ACTIVATION_REQUIRED`; otherwise `create()` is invoked to trigger the
download — resolution → success, rejection → `DOWNLOAD_ERROR`. -/
def downloadSpecificAPI (apiName : List Char) (h : DownloadHost) : DownloadResult :=
  if h.windowDefined = false then
    { success := false, code := some (str "SSR_ERROR"),
      message := some (str "Cannot access Chrome AI APIs on server side") }
  else if h.apiPresent = false then
    { success := false, code := some (str "API_UNAVAILABLE"),
      message := some (apiName ++ str " API is not available") }
  else
    match (if h.hasAvailability then h.availabilityResult else .ok (str "unavailable")) with
    | .error e =>
      { success := false, code := some (str "DOWNLOAD_ERROR"),
        message := some (str "Failed to download " ++ apiName ++ str " model: " ++ e) }
    | .ok availability =>
      if availability = str "available" then
        { success := true, statusData := some (apiName ++ str " model is already available") }
      else if availability = str "unavailable" then
        { success := false, code := some (str "API_UNAVAILABLE"),
          message := some (apiName ++ str " API is not available on this device") }
      else if h.userActive = false then
        { success := false, code := some (str "USER_ACTIVATION_REQUIRED"),
          message := some (str "User activation required to download model. Please click a button or interact with the page.") }
      else
        match h.createResult with
        | .ok _ =>
          { success := true,
            statusData := some (apiName ++ str " model download triggered successfully") }
        | .error e =>
          { success := false, code := some (str "DOWNLOAD_ERROR"),
            message := some (str "Failed to download " ++ apiName ++ str " model: " ++ e) }

/-- An 8001-character input: one character over the summarizer's 8000
character chunk budget, so the chunked path runs with two windows. -/
def content8001 : List Char := List.replicate 8001 'a'

/-- The first window of `content8001` for the summarizer profile. -/
def chunkA : List Char := List.replicate 8000 'a'

/-- The second (final, shorter) window of `content8001` for the summarizer
profile. -/
def chunkB : List Char := List.replicate 401 'a'

/-- A worker whose every call resolves to a returned failure. -/
def failWorker : Worker := fun _ => .ok { success := false, error := some (str "model error") }

/-- A worker whose every call resolves to success carrying an empty
 string. -/
def emptyDataWorker : Worker := fun _ => .ok { success := true, data := some [] }

/-- A worker that echoes its input as successful data. -/
def echoWorker : Worker := fun c => .ok { success := true, data := some c }

/-- A worker that resolves to success `"S"` on large chunks and to a
returned failure on chunks of at most 1000 characters. -/
def mixedWorker : Worker := fun c =>
  if c.length ≤ 1000 then .ok { success := false, error := some (str "bad chunk") }
  else .ok { success := true, data := some (str "S") }

/-- A worker that resolves to success `"S"` on large chunks but rejects
(throws) on chunks of at most 1000 characters. -/
def throwingWorker : Worker := fun c =>
  if c.length ≤ 1000 then .error (str "boom")
  else .ok { success := true, data := some (str "S") }

/-- A 10-character input whose middle window is entirely whitespace for the
profile `⟨0, 4, 1⟩`. -/
def wsContent : List Char := str "abc    xyz"

/-- One-step unfolding of `chunkStartsFuel`, phrased with `if` and literal
subtraction so that `simp` can evaluate the loop on numeric literals. -/
theorem chunkStartsFuel_eq (step len i fuel : Nat) :
    chunkStartsFuel step len i fuel =
      if fuel = 0 then []
      else if i < len then i :: chunkStartsFuel step len (i + step) (fuel - 1)
      else [] := by
  cases fuel <;> simp [chunkStartsFuel]

theorem chunkStartsFuel_of_le (step len i : Nat) (h : len ≤ i) :
    ∀ fuel, chunkStartsFuel step len i fuel = [] := by
  intro fuel
  cases fuel with
  | zero => rfl
  | succ n => simp [chunkStartsFuel, Nat.not_lt.mpr h]

/-- With a positive step and enough fuel, the cursor positions form the
arithmetic progression `i, i + step, i + 2 * step, …` cut off at `len`. -/
theorem chunkStartsFuel_get? (step len : Nat) (hstep : 0 < step) :
    ∀ fuel i k, len - i ≤ fuel →
      (chunkStartsFuel step len i fuel).get? k =
        if i + k * step < len then some (i + k * step) else none := by
  intro fuel
  induction fuel with
  | zero =>
    intro i k h
    have hik : ¬ i + k * step < len := by omega
    simp [chunkStartsFuel, hik]
  | succ n ih =>
    intro i k h
    by_cases hi : i < len
    · simp only [chunkStartsFuel, if_pos hi]
      cases k with
      | zero => simp [hi]
      | succ m =>
        have hrec := ih (i + step) m (by omega)
        simp only [List.get?_cons_succ]
        rw [hrec]
        have harith : i + step + m * step = i + (m + 1) * step := by ring
        rw [harith]
    · simp only [chunkStartsFuel, if_neg hi]
      have hik : ¬ i + k * step < len := by omega
      simp [hik]

/-- With a positive step, any fuel of at least `len - i` yields the same
cursor positions: the loop terminates, and `len` iterations are enough. -/
theorem chunkStartsFuel_fuel_irrel (step len : Nat) (hstep : 0 < step) :
    ∀ fuel fuel' i, len - i ≤ fuel → len - i ≤ fuel' →
      chunkStartsFuel step len i fuel = chunkStartsFuel step len i fuel' := by
  intro fuel
  induction fuel with
  | zero =>
    intro fuel' i h h'
    have hi : len ≤ i := by omega
    rw [chunkStartsFuel_of_le step len i hi, chunkStartsFuel_of_le step len i hi]
  | succ n ih =>
    intro fuel' i h h'
    by_cases hi : i < len
    · cases fuel' with
      | zero => omega
      | succ m =>
        simp only [chunkStartsFuel, if_pos hi]
        rw [ih m (i + step) (by omega) (by omega)]
    · have hle : len ≤ i := by omega
      rw [chunkStartsFuel_of_le step len i hle, chunkStartsFuel_of_le step len i hle]

/-- Every character position below `len` lies inside the window starting at
the cursor position `(j / step) * step`. -/
theorem chunkStarts_covers (step len : Nat) (hstep : 0 < step) (j : Nat) (hj : j < len) :
    ∃ i ∈ chunkStarts step len, i ≤ j ∧ j < i + step := by
  have hdm := Nat.div_add_mod j step
  have hmlt : j % step < step := Nat.mod_lt j hstep
  have hcomm : (j / step) * step = step * (j / step) := Nat.mul_comm _ _
  have hle : (j / step) * step ≤ j := by omega
  have hlt : j < (j / step) * step + step := by omega
  refine ⟨(j / step) * step, ?_, hle, hlt⟩
  have hget := chunkStartsFuel_get? step len hstep len 0 (j / step) (by omega)
  have hpos : 0 + (j / step) * step < len := by omega
  rw [if_pos hpos] at hget
  have hmem : (chunkStarts step len).get? (j / step) = some ((j / step) * step) := by
    rw [chunkStarts, hget]
    simp
  exact List.get?_mem hmem

/-- The kept windows are the windows of the kept cursor positions. -/
theorem createChunksWith_eq_map_keptStarts (o : ChunkingOptions) (content : List Char) :
    createChunksWith o content =
      (keptStarts o content).map (fun i => (content.drop i).take o.chunkSize) := by
  rw [createChunksWith, keptStarts]
  induction chunkStarts (o.chunkSize - o.overlapSize) content.length with
  | nil => rfl
  | cons a l ih =>
    by_cases ha : trimNonempty ((content.drop a).take o.chunkSize) = true
    · simp [List.filter_cons, ha, ih]
    · simp only [Bool.not_eq_true] at ha
      simp [List.filter_cons, ha, ih]

theorem trimNonempty_replicate (n : Nat) (c : Char) (hn : 0 < n)
    (hc : c.isWhitespace = false) :
    trimNonempty (List.replicate n c) = true := by
  cases n with
  | zero => omega
  | succ m => simp [trimNonempty, List.replicate_succ, hc]

theorem content8001_length : content8001.length = 8001 := by
  rw [content8001, List.length_replicate]

theorem needsChunking_content8001 : needsChunking content8001 APIKey.summarizer = true := by
  rw [needsChunking, needsChunkingWith, content8001_length]
  rfl

/-- The summarizer windows of the 8001-character input: one full window of
8000 characters and a final window of the remaining 401 characters
(overlapping the first by 400). -/
theorem createChunks_content8001 :
    createChunks content8001 APIKey.summarizer = [chunkA, chunkB] := by
  rw [createChunks]
  show createChunksWith ⟨2500, 8000, 400⟩ content8001 = [chunkA, chunkB]
  rw [createChunksWith]
  have hcs : chunkStarts (8000 - 400) 8001 = [0, 7600] := by
    simp [chunkStarts, chunkStartsFuel_eq]
  rw [content8001_length, hcs]
  have hA : ((content8001.drop 0).take 8000 : List Char) = chunkA := by
    rw [content8001, chunkA, List.drop_replicate, List.take_replicate]
    congr 1
  have hB : ((content8001.drop 7600).take 8000 : List Char) = chunkB := by
    rw [content8001, chunkB, List.drop_replicate, List.take_replicate]
    congr 1
  simp only [List.map_cons, List.map_nil]
  rw [hA, hB]
  have htA : trimNonempty chunkA = true :=
    trimNonempty_replicate 8000 'a' (by omega) (by decide)
  have htB : trimNonempty chunkB = true :=
    trimNonempty_replicate 401 'a' (by omega) (by decide)
  simp [List.filter_cons, htA, htB]

theorem chunkA_length : chunkA.length = 8000 := by
  rw [chunkA, List.length_replicate]

theorem chunkB_length : chunkB.length = 401 := by
  rw [chunkB, List.length_replicate]

/-- A worker that never rejects lets the per-chunk loop run to the end:
no thrown error is recorded. -/
theorem processChunksLoop_nothrow (f : Worker) (hf : ∀ x, ∃ r, f x = Except.ok r) :
    ∀ cs, (processChunksLoop f cs).2.2 = none := by
  intro cs
  induction cs with
  | nil => rfl
  | cons c cs ih =>
    obtain ⟨r, hr⟩ := hf c
    rcases h : processChunksLoop f cs with ⟨rest, trace, thrown⟩
    rw [h] at ih
    simp only [processChunksLoop, hr, h]
    simpa using ih

/-- If every chunk's call resolves but none passes the
`success && data` collection test, the loop collects nothing and records no
thrown error. -/
theorem processChunksLoop_allskip (f : Worker) :
    ∀ cs, (∀ c ∈ cs, ∃ r, f c = Except.ok r ∧ (r.success && dataTruthy r.data) = false) →
      ∃ tr, processChunksLoop f cs = ([], tr, none) := by
  intro cs
  induction cs with
  | nil => exact fun _ => ⟨[], rfl⟩
  | cons c cs ih =>
    intro h
    obtain ⟨r, hr, hcond⟩ := h c (List.mem_cons_self c cs)
    obtain ⟨tr, htr⟩ := ih (fun x hx => h x (List.mem_cons_of_mem c hx))
    refine ⟨c :: tr, ?_⟩
    simp only [processChunksLoop, hr, htr, hcond]
    simp

/-- If every call resolves and some chunk's call passes the collection
test, the loop collects at least one output. -/
theorem processChunksLoop_collected_ne_nil (f : Worker)
    (hf : ∀ x, ∃ r, f x = Except.ok r) :
    ∀ cs c rr, c ∈ cs → f c = Except.ok rr → rr.success = true → dataTruthy rr.data = true →
      (processChunksLoop f cs).1 ≠ [] := by
  intro cs
  induction cs with
  | nil =>
    intro c rr hc
    cases hc
  | cons a cs ih =>
    intro c rr hc hfc hsucc hdata
    obtain ⟨ra, hra⟩ := hf a
    rcases h : processChunksLoop f cs with ⟨rest, trace, thrown⟩
    simp only [processChunksLoop, hra, h]
    rcases List.mem_cons.mp hc with hceq | hmem
    · subst hceq
      rw [hra] at hfc
      injection hfc with hfc
      subst hfc
      simp [hsucc, hdata]
    · have hrest : rest ≠ [] := by
        have hne := ih c rr hmem hfc hsucc hdata
        rw [h] at hne
        exact hne
      by_cases hcond : (ra.success && dataTruthy ra.data) = true
      · simp [hcond]
      · simp only [Bool.not_eq_true] at hcond
        simp [hcond, hrest]

theorem mixedWorker_chunkA :
    mixedWorker chunkA = Except.ok { success := true, data := some (str "S") } := by
  simp [mixedWorker, chunkA_length]

theorem mixedWorker_chunkB :
    mixedWorker chunkB = Except.ok { success := false, error := some (str "bad chunk") } := by
  simp [mixedWorker, chunkB_length]

theorem throwingWorker_chunkA :
    throwingWorker chunkA = Except.ok { success := true, data := some (str "S") } := by
  simp [throwingWorker, chunkA_length]

theorem throwingWorker_chunkB : throwingWorker chunkB = Except.error (str "boom") := by
  simp [throwingWorker, chunkB_length]

theorem chunkA_isEmpty : chunkA.isEmpty = false := by
  have h := chunkA_length
  cases hA : chunkA with
  | nil => rw [hA] at h; simp at h
  | cons x xs => rfl

theorem chunkB_isEmpty : chunkB.isEmpty = false := by
  have h := chunkB_length
  cases hB : chunkB with
  | nil => rw [hB] at h; simp at h
  | cons x xs => rfl

/-- The per-chunk loop on the two summarizer windows with the mixed worker:
the first window's output is collected, the second is skipped. -/
theorem processChunksLoop_mixed :
    processChunksLoop mixedWorker [chunkA, chunkB] =
      ([str "S"], [chunkA, chunkB], none) := by
  simp [processChunksLoop, mixedWorker_chunkA, mixedWorker_chunkB, dataTruthy]
  decide

/-- The per-chunk loop on the two summarizer windows with the throwing
worker: the first call succeeds and is collected, the second rejects and
aborts the loop with the thrown message. -/
theorem processChunksLoop_throwing :
    processChunksLoop throwingWorker [chunkA, chunkB] =
      ([str "S"], [chunkA, chunkB], some (str "boom")) := by
  simp [processChunksLoop, throwingWorker_chunkA, throwingWorker_chunkB, dataTruthy]
  decide

/-- The per-chunk loop on the two summarizer windows with the echo worker:
both windows are collected. -/
theorem processChunksLoop_echo :
    processChunksLoop echoWorker [chunkA, chunkB] =
      ([chunkA, chunkB], [chunkA, chunkB], none) := by
  simp [processChunksLoop, echoWorker, dataTruthy, chunkA_isEmpty, chunkB_isEmpty]

/-- C3: for every string `s` and capability profile `p` with
`len(s) <= p.chunkSize`, `needsChunking(s, p)` returns `false`, and
`processWithChunking` invokes the worker exactly once, with the unmodified
`s`, and returns the worker's result directly — success with its data, or
failure with its error (defaulting to `'API call failed'` for a missing or
empty error), or failure with the thrown message when the call rejects —
without any splitting or recombination. -/
theorem processWithChunking_small_input (content : List Char) (k : APIKey) (f : Worker)
    (hsmall : content.length ≤ (API_TOKEN_LIMITS k).chunkSize) :
    needsChunking content k = false ∧
    processWithChunkingCalls content k f = [content] ∧
    (∀ r, f content = Except.ok r →
      processWithChunking content k f =
        (if r.success then { success := true, data := r.data }
         else { success := false,
                error := some (jsOrDefault r.error (str "API call failed")) })) ∧
    (∀ e, f content = Except.error e →
      processWithChunking content k f = { success := false, error := some e }) := by
  have hnc : needsChunking content k = false := by
    rw [needsChunking, needsChunkingWith]
    simp [Nat.not_lt.mpr hsmall]
  refine ⟨hnc, ?_, ?_, ?_⟩
  · rw [processWithChunkingCalls, processWithChunkingT, if_pos hnc]
    cases hfc : f content with
    | error e => rfl
    | ok r =>
      by_cases hs : r.success = true <;> simp [hs]
  · intro r hr
    rw [processWithChunking, processWithChunkingT, if_pos hnc, hr]
    by_cases hs : r.success = true <;> simp [hs]
  · intro e he
    rw [processWithChunking, processWithChunkingT, if_pos hnc, he]

/-- C3 witness: the 2-character input is under the summarizer budget and
the echo worker's result is returned directly from a single call. -/
theorem processWithChunking_small_input_witness :
    (str "ab").length ≤ (API_TOKEN_LIMITS APIKey.summarizer).chunkSize ∧
    processWithChunkingCalls (str "ab") APIKey.summarizer echoWorker = [str "ab"] ∧
    processWithChunking (str "ab") APIKey.summarizer echoWorker =
      { success := true, data := some (str "ab") } := by
  have h := processWithChunking_small_input (str "ab") APIKey.summarizer echoWorker (by decide)
  refine ⟨by decide, h.2.1, ?_⟩
  have h3 := h.2.2.1 { success := true, data := some (str "ab") } rfl
  simpa using h3

/-- C2: for every chunked execution, if the worker call returns failure on
every chunk so that zero successful results are collected,
`processWithChunking` returns a failure whose error message is
`'All chunks failed to process'`. -/
theorem processWithChunking_total_failure (content : List Char) (k : APIKey) (f : Worker)
    (hbig : needsChunking content k = true)
    (hall : ∀ c ∈ createChunks content k, ∃ r, f c = Except.ok r ∧ r.success = false) :
    processWithChunking content k f =
      { success := false, error := some (str "All chunks failed to process") } := by
  have hskip : ∀ c ∈ createChunks content k,
      ∃ r, f c = Except.ok r ∧ (r.success && dataTruthy r.data) = false := by
    intro c hc
    obtain ⟨r, hr, hs⟩ := hall c hc
    exact ⟨r, hr, by simp [hs]⟩
  obtain ⟨tr, htr⟩ := processChunksLoop_allskip f (createChunks content k) hskip
  rw [processWithChunking, processWithChunkingT, if_neg (by simp [hbig]), htr]
  simp [combinePhase]

/-- C2 witness: on the 8001-character input every chunk's call returns
failure, and the total-failure message is produced. -/
theorem processWithChunking_total_failure_witness :
    needsChunking content8001 APIKey.summarizer = true ∧
    processWithChunking content8001 APIKey.summarizer failWorker =
      { success := false, error := some (str "All chunks failed to process") } :=
  ⟨needsChunking_content8001,
    processWithChunking_total_failure content8001 APIKey.summarizer failWorker
      needsChunking_content8001 (fun _ _ => ⟨_, rfl, rfl⟩)⟩

/-- C10: in the chunked path, a worker result with `success = true` but
empty-string or missing data is not collected — it is skipped exactly as a
failed chunk is — so if every chunk returns success with empty data the
overall result is the total-failure error `'All chunks failed to process'`
even though no worker call reported failure. -/
theorem processWithChunking_empty_data_skipped (content : List Char) (k : APIKey) (f : Worker)
    (hbig : needsChunking content k = true)
    (hall : ∀ c ∈ createChunks content k,
      ∃ r, f c = Except.ok r ∧ r.success = true ∧ (r.data = none ∨ r.data = some [])) :
    (∀ (c : List Char) (cs : List (List Char)) r, f c = Except.ok r → r.success = true →
      (r.data = none ∨ r.data = some []) →
      collectedOutputs f (c :: cs) = collectedOutputs f cs) ∧
    processWithChunking content k f =
      { success := false, error := some (str "All chunks failed to process") } := by
  constructor
  · intro c cs r hfc hs hd
    have hdt : dataTruthy r.data = false := by
      rcases hd with h | h <;> simp [h, dataTruthy]
    rw [collectedOutputs, collectedOutputs]
    rcases h : processChunksLoop f cs with ⟨rest, trace, thrown⟩
    simp [processChunksLoop, hfc, h, hdt]
  · have hskip : ∀ c ∈ createChunks content k,
        ∃ r, f c = Except.ok r ∧ (r.success && dataTruthy r.data) = false := by
      intro c hc
      obtain ⟨r, hr, hs, hd⟩ := hall c hc
      have hdt : dataTruthy r.data = false := by
        rcases hd with h | h <;> simp [h, dataTruthy]
      exact ⟨r, hr, by simp [hdt]⟩
    obtain ⟨tr, htr⟩ := processChunksLoop_allskip f (createChunks content k) hskip
    rw [processWithChunking, processWithChunkingT, if_neg (by simp [hbig]), htr]
    simp [combinePhase]

/-- C1 counterexample: on the 8001-character input, the first window's
worker call succeeds (with nonempty data) and the second window's call
throws; the claim says the failing chunk is skipped and the execution
returns success, but `processWithChunking` returns failure carrying the
thrown message — a rejected per-chunk call is not caught per chunk, it
aborts the whole execution through the outer handler. -/
theorem chunk_throw_aborts_counterexample :
    needsChunking content8001 APIKey.summarizer = true ∧
    (∃ c ∈ createChunks content8001 APIKey.summarizer,
      ∃ r, throwingWorker c = Except.ok r ∧ r.success = true ∧ dataTruthy r.data = true) ∧
    (∃ c ∈ createChunks content8001 APIKey.summarizer,
      throwingWorker c = Except.error (str "boom")) ∧
    processWithChunking content8001 APIKey.summarizer throwingWorker =
      { success := false, error := some (str "boom") } := by
  refine ⟨needsChunking_content8001, ?_, ?_, ?_⟩
  · refine ⟨chunkA, ?_, ?_⟩
    · rw [createChunks_content8001]
      exact List.mem_cons_self _ _
    · exact ⟨_, throwingWorker_chunkA, rfl, by decide⟩
  · refine ⟨chunkB, ?_, throwingWorker_chunkB⟩
    rw [createChunks_content8001]
    exact List.mem_cons_of_mem _ (List.mem_cons_self _ _)
  · rw [processWithChunking, processWithChunkingT,
      if_neg (by simp [needsChunking_content8001]),
      createChunks_content8001, processChunksLoop_throwing]
    rfl

/-- C1 (amended): for every chunked execution with a worker whose calls
all resolve (none throws), if the call on some chunk returns failure but at
least one other chunk's call returns success with nonempty data,
`processWithChunking` returns success — the failing chunk is skipped and
execution continues — and, when the joined successful outputs do not
themselves exceed the chunk budget, the output is exactly the successful
chunks' outputs joined with `'\n\n'`.  The original claim also allowed the
failing chunk's call to throw; as the counterexample shows, a thrown
per-chunk call instead aborts the whole execution with a failure. -/
theorem processWithChunking_partial_failure (content : List Char) (k : APIKey) (f : Worker)
    (hbig : needsChunking content k = true)
    (hnothrow : ∀ x, ∃ r, f x = Except.ok r)
    (_hfail : ∃ c ∈ createChunks content k, ∃ r, f c = Except.ok r ∧ r.success = false)
    (hsucc : ∃ c ∈ createChunks content k,
      ∃ r, f c = Except.ok r ∧ r.success = true ∧ dataTruthy r.data = true) :
    (processWithChunking content k f).success = true ∧
    (needsChunking (joinSep (str "\n\n") (collectedOutputs f (createChunks content k))) k
        = false →
      processWithChunking content k f =
        { success := true,
          data := some (joinSep (str "\n\n")
            (collectedOutputs f (createChunks content k))) }) := by
  obtain ⟨c, hc, rr, hrr, hrs, hrd⟩ := hsucc
  rcases h : processChunksLoop f (createChunks content k) with ⟨results, trace, thrown⟩
  have hthr : thrown = none := by
    have hn := processChunksLoop_nothrow f hnothrow (createChunks content k)
    rw [h] at hn
    exact hn
  subst hthr
  have hres : results ≠ [] := by
    have hn := processChunksLoop_collected_ne_nil f hnothrow
      (createChunks content k) c rr hc hrr hrs hrd
    rw [h] at hn
    exact hn
  have hcoll : collectedOutputs f (createChunks content k) = results := by
    rw [collectedOutputs, h]
  have hlen : ¬ results.length = 0 := by
    simpa [List.length_eq_zero] using hres
  have hmain : processWithChunking content k f = (combinePhase k f (results, trace, none)).1 := by
    rw [processWithChunking, processWithChunkingT, if_neg (by simp [hbig]), h]
  rw [hcoll]
  constructor
  · rw [hmain]
    simp only [combinePhase, hlen, if_false]
    by_cases hover : needsChunking (joinSep (str "\n\n") results) k = true
    · obtain ⟨fr, hfr⟩ := hnothrow (joinSep (str "\n\n") results)
      simp only [hover, if_true, hfr]
      by_cases hfs : fr.success = true <;> simp [hfs]
    · simp only [Bool.not_eq_true] at hover
      simp [hover]
  · intro hno
    rw [hmain]
    simp [combinePhase, hlen, hno]

/-- C1 witness: on the 8001-character input, the second window's call
returns failure and the first succeeds with `"S"`; the execution returns
success with the joined output `"S"`. -/
theorem processWithChunking_partial_failure_witness :
    needsChunking content8001 APIKey.summarizer = true ∧
    processWithChunking content8001 APIKey.summarizer mixedWorker =
      { success := true, data := some (str "S") } := by
  have hcoll : collectedOutputs mixedWorker (createChunks content8001 APIKey.summarizer)
      = [str "S"] := by
    rw [collectedOutputs, createChunks_content8001, processChunksLoop_mixed]
  have hthm := processWithChunking_partial_failure content8001 APIKey.summarizer mixedWorker
    needsChunking_content8001
    (fun x => by
      by_cases hx : x.length ≤ 1000 <;> simp [mixedWorker, hx])
    ⟨chunkB,
      by rw [createChunks_content8001]; exact List.mem_cons_of_mem _ (List.mem_cons_self _ _),
      _, mixedWorker_chunkB, rfl⟩
    ⟨chunkA,
      by rw [createChunks_content8001]; exact List.mem_cons_self _ _,
      _, mixedWorker_chunkA, rfl, by decide⟩
  refine ⟨needsChunking_content8001, ?_⟩
  have h2 := hthm.2 (by rw [hcoll]; decide)
  rw [hcoll] at h2
  simpa using h2

/-- C5: for every chunked execution where the per-chunk loop finishes with
no thrown error and at least one collected output, if the joined result
(successful outputs joined with `'\n\n'`) still exceeds the capability's
chunk budget, `processWithChunking` invokes the worker exactly once more,
on the joined result; if that final condensation call returns success its
output is returned as success, and if it returns failure the joined
uncondensed result is returned as success rather than a failure.  (`Fails`
is read as the worker returning an unsuccessful result: a final call that
throws instead aborts the execution through the outer handler, the
situation already covered by the correction of C1.) -/
theorem processWithChunking_recombination_overflow (content : List Char) (k : APIKey)
    (f : Worker)
    (hbig : needsChunking content k = true)
    (hthr : (processChunksLoop f (createChunks content k)).2.2 = none)
    (hne : collectedOutputs f (createChunks content k) ≠ [])
    (hover : needsChunking
      (joinSep (str "\n\n") (collectedOutputs f (createChunks content k))) k = true) :
    processWithChunkingCalls content k f =
      (processChunksLoop f (createChunks content k)).2.1 ++
        [joinSep (str "\n\n") (collectedOutputs f (createChunks content k))] ∧
    (∀ r, f (joinSep (str "\n\n") (collectedOutputs f (createChunks content k)))
        = Except.ok r →
      processWithChunking content k f =
        (if r.success then { success := true, data := r.data }
         else { success := true,
                data := some (joinSep (str "\n\n")
                  (collectedOutputs f (createChunks content k))) })) := by
  rcases h : processChunksLoop f (createChunks content k) with ⟨results, trace, thrown⟩
  rw [h] at hthr
  simp only at hthr
  subst hthr
  have hcoll : collectedOutputs f (createChunks content k) = results := by
    rw [collectedOutputs, h]
  rw [hcoll] at hne hover ⊢
  have hlen : ¬ results.length = 0 := by
    simpa [List.length_eq_zero] using hne
  constructor
  · rw [processWithChunkingCalls, processWithChunkingT, if_neg (by simp [hbig]), h]
    simp only [combinePhase, hlen, if_false, hover, if_true]
    cases hfc : f (joinSep (str "\n\n") results) with
    | error e => simp
    | ok r => by_cases hs : r.success = true <;> simp [hs]
  · intro r hr
    rw [processWithChunking, processWithChunkingT, if_neg (by simp [hbig]), h]
    simp only [combinePhase, hlen, if_false, hover, if_true, hr]
    by_cases hs : r.success = true <;> simp [hs]

/-- C5 witness: with the echo worker the two windows' outputs join to an
8403-character result that exceeds the 8000-character budget; the worker
is called once more on the joined result and its successful output is
returned. -/
theorem processWithChunking_recombination_overflow_witness :
    needsChunking content8001 APIKey.summarizer = true ∧
    processWithChunkingCalls content8001 APIKey.summarizer echoWorker =
      [chunkA, chunkB, chunkA ++ str "\n\n" ++ chunkB] ∧
    processWithChunking content8001 APIKey.summarizer echoWorker =
      { success := true, data := some (chunkA ++ str "\n\n" ++ chunkB) } := by
  have hcoll : collectedOutputs echoWorker (createChunks content8001 APIKey.summarizer)
      = [chunkA, chunkB] := by
    rw [collectedOutputs, createChunks_content8001, processChunksLoop_echo]
  have hjoin : joinSep (str "\n\n") [chunkA, chunkB] = chunkA ++ str "\n\n" ++ chunkB := by
    rfl
  have hover : needsChunking
      (joinSep (str "\n\n") (collectedOutputs echoWorker
        (createChunks content8001 APIKey.summarizer))) APIKey.summarizer = true := by
    rw [hcoll, hjoin, needsChunking, needsChunkingWith]
    simp [List.length_append, chunkA_length, chunkB_length]
    decide
  have hthm := processWithChunking_recombination_overflow content8001 APIKey.summarizer
    echoWorker needsChunking_content8001
    (by rw [createChunks_content8001, processChunksLoop_echo])
    (by rw [hcoll]; simp)
    hover
  refine ⟨needsChunking_content8001, ?_, ?_⟩
  · have h1 := hthm.1
    rw [hcoll, hjoin, createChunks_content8001, processChunksLoop_echo] at h1
    simpa using h1
  · have h2 := hthm.2 { success := true, data := some (joinSep (str "\n\n")
      (collectedOutputs echoWorker (createChunks content8001 APIKey.summarizer))) }
      (by rfl)
    rw [hcoll, hjoin] at h2
    simpa using h2

/-- C10 witness: every chunk of the 8001-character input succeeds with an
empty string and the total-failure message is produced. -/
theorem processWithChunking_empty_data_skipped_witness :
    needsChunking content8001 APIKey.summarizer = true ∧
    processWithChunking content8001 APIKey.summarizer emptyDataWorker =
      { success := false, error := some (str "All chunks failed to process") } :=
  ⟨needsChunking_content8001,
    (processWithChunking_empty_data_skipped content8001 APIKey.summarizer emptyDataWorker
      needsChunking_content8001 (fun _ _ => ⟨_, rfl, rfl, Or.inr rfl⟩)).2⟩

/-- C4 counterexample: for the valid profile `⟨0, 4, 1⟩` (overlap 1 <
chunk 4) and the input `"abc    xyz"`, the window starting at 3 is entirely
whitespace and is dropped, and character 4 of the input is covered by no
produced window — so the produced windows do not cover every character.
Moreover, for the valid profile `⟨0, 4, 3⟩` and input `"abcdef"`, the
consecutive windows starting at 3 and 4 overlap by 2 ≠ 3 characters even
though the window starting at 4 is not the final window — so the exactness
of the overlap fails beyond the claim's final-window exception. -/
theorem createChunks_coverage_counterexample :
    (ChunkingOptions.mk 0 4 1).overlapSize < (ChunkingOptions.mk 0 4 1).chunkSize ∧
    wsContent.length = 10 ∧
    keptStarts ⟨0, 4, 1⟩ wsContent = [0, 6, 9] ∧
    createChunksWith ⟨0, 4, 1⟩ wsContent =
      [str "abc ", str " xyz", str "z"] ∧
    ¬ (∃ i ∈ keptStarts ⟨0, 4, 1⟩ wsContent,
        i ≤ 4 ∧ 4 < i + (ChunkingOptions.mk 0 4 1).chunkSize) ∧
    (ChunkingOptions.mk 0 4 3).overlapSize < (ChunkingOptions.mk 0 4 3).chunkSize ∧
    keptStarts ⟨0, 4, 3⟩ (str "abcdef") = [0, 1, 2, 3, 4, 5] ∧
    min (3 + (ChunkingOptions.mk 0 4 3).chunkSize) (str "abcdef").length - 4 = 2 ∧
    (2 : Nat) ≠ (ChunkingOptions.mk 0 4 3).overlapSize := by
  decide

/-- C4 (amended): for every input string and valid profile
(`overlapSize < chunkSize`), the windows generated by the splitter BEFORE
the nonempty-trim filter cover every character of the input at least once;
when no generated window is entirely whitespace (so none is dropped) the
produced windows cover every character; and consecutive generated windows
start exactly `chunkSize - overlapSize` apart, so a window of full length
`chunkSize` overlaps the next window by exactly `overlapSize` characters.
The original claim fails in two ways shown by the counterexample: a dropped
whitespace-only window can leave characters uncovered, and a truncated
window that is not the final one can overlap its successor by less than
`overlapSize`. -/
theorem chunkStarts_coverage_overlap (o : ChunkingOptions) (content : List Char)
    (hvalid : o.overlapSize < o.chunkSize) :
    (∀ j < content.length,
      ∃ i ∈ chunkStarts (o.chunkSize - o.overlapSize) content.length,
        i ≤ j ∧ j < i + o.chunkSize) ∧
    ((∀ i ∈ chunkStarts (o.chunkSize - o.overlapSize) content.length,
        trimNonempty ((content.drop i).take o.chunkSize) = true) →
      keptStarts o content = chunkStarts (o.chunkSize - o.overlapSize) content.length ∧
      ∀ j < content.length, ∃ i ∈ keptStarts o content, i ≤ j ∧ j < i + o.chunkSize) ∧
    (∀ k i i',
      (chunkStarts (o.chunkSize - o.overlapSize) content.length).get? k = some i →
      (chunkStarts (o.chunkSize - o.overlapSize) content.length).get? (k + 1) = some i' →
      i' = i + (o.chunkSize - o.overlapSize) ∧
      (i + o.chunkSize ≤ content.length →
        min (i + o.chunkSize) content.length - i' = o.overlapSize)) := by
  have hstep : 0 < o.chunkSize - o.overlapSize := by omega
  have hcover : ∀ j < content.length,
      ∃ i ∈ chunkStarts (o.chunkSize - o.overlapSize) content.length,
        i ≤ j ∧ j < i + o.chunkSize := by
    intro j hj
    obtain ⟨i, hmem, hle, hlt⟩ :=
      chunkStarts_covers (o.chunkSize - o.overlapSize) content.length hstep j hj
    exact ⟨i, hmem, hle, by omega⟩
  refine ⟨hcover, ?_, ?_⟩
  · intro hall
    have hkept : keptStarts o content
        = chunkStarts (o.chunkSize - o.overlapSize) content.length :=
      List.filter_eq_self.mpr hall
    refine ⟨hkept, ?_⟩
    rw [hkept]
    exact hcover
  · intro k i i' h1 h2
    have g1 := chunkStartsFuel_get? (o.chunkSize - o.overlapSize) content.length hstep
      content.length 0 k (by omega)
    have g2 := chunkStartsFuel_get? (o.chunkSize - o.overlapSize) content.length hstep
      content.length 0 (k + 1) (by omega)
    rw [chunkStarts] at h1 h2
    rw [g1] at h1
    rw [g2] at h2
    by_cases hc1 : 0 + k * (o.chunkSize - o.overlapSize) < content.length
    · rw [if_pos hc1] at h1
      injection h1 with h1
      by_cases hc2 : 0 + (k + 1) * (o.chunkSize - o.overlapSize) < content.length
      · rw [if_pos hc2] at h2
        injection h2 with h2
        have hmul : (k + 1) * (o.chunkSize - o.overlapSize)
            = k * (o.chunkSize - o.overlapSize) + (o.chunkSize - o.overlapSize) := by
          ring
        constructor
        · omega
        · intro hfull
          have hmin : min (i + o.chunkSize) content.length = i + o.chunkSize :=
            Nat.min_eq_left hfull
          rw [hmin]
          omega
      · rw [if_neg hc2] at h2
        exact absurd h2 (by simp)
    · rw [if_neg hc1] at h1
      exact absurd h1 (by simp)

/-- C4 witness: for the valid profile `⟨0, 4, 1⟩` and the whitespace-free
10-character input `"abcdefghij"`, character 7 is covered by a generated
window. -/
theorem chunkStarts_coverage_overlap_witness :
    (ChunkingOptions.mk 0 4 1).overlapSize < (ChunkingOptions.mk 0 4 1).chunkSize ∧
    (∃ i ∈ chunkStarts
        ((ChunkingOptions.mk 0 4 1).chunkSize - (ChunkingOptions.mk 0 4 1).overlapSize)
        (str "abcdefghij").length,
      i ≤ 7 ∧ 7 < i + (ChunkingOptions.mk 0 4 1).chunkSize) :=
  ⟨by decide,
    (chunkStarts_coverage_overlap ⟨0, 4, 1⟩ (str "abcdefghij") (by decide)).1 7 (by decide)⟩

/-- C6 counterexample: for the profile `⟨1, 5, 5⟩` the advance step
`chunkSize - overlapSize` is 0 (non-positive), and on an input of length 1
the splitter loop neither fails fast nor terminates: there is no iteration
count after which the loop's state stabilizes — each additional iteration
appends another cursor position, because the guard `i < len` stays true
forever.  The source contains no defensive guard. -/
theorem chunkLoop_nonpositive_step_counterexample :
    (ChunkingOptions.mk 1 5 5).chunkSize - (ChunkingOptions.mk 1 5 5).overlapSize = 0 ∧
    ¬ ∃ n, chunkStartsFuel 0 1 0 n = chunkStartsFuel 0 1 0 (n + 1) := by
  constructor
  · rfl
  · rintro ⟨n, hn⟩
    have hlen : ∀ m, (chunkStartsFuel 0 1 0 m).length = m := by
      intro m
      induction m with
      | zero => rfl
      | succ p ih => simp [chunkStartsFuel, ih]
    have h1 := hlen n
    have h2 := hlen (n + 1)
    rw [hn] at h1
    omega

/-- C6 (amended): the source loop has no defensive guard against a
non-positive advance step (as the counterexample shows, with such a step it
never exits); `createChunks` nevertheless terminates for every input string
and every registry profile because every registry profile has
`chunkSize > overlapSize`: the step is positive, and with a positive step
the loop's cursor positions stabilize once the fuel reaches the input
length — `createChunks` computes exactly that fixed point. -/
theorem createChunks_registry_terminates (k : APIKey) (content : List Char) (fuel : Nat)
    (hfuel : content.length ≤ fuel) :
    0 < (API_TOKEN_LIMITS k).chunkSize - (API_TOKEN_LIMITS k).overlapSize ∧
    chunkStartsFuel ((API_TOKEN_LIMITS k).chunkSize - (API_TOKEN_LIMITS k).overlapSize)
        content.length 0 fuel =
      chunkStarts ((API_TOKEN_LIMITS k).chunkSize - (API_TOKEN_LIMITS k).overlapSize)
        content.length := by
  have hstep : 0 < (API_TOKEN_LIMITS k).chunkSize - (API_TOKEN_LIMITS k).overlapSize := by
    cases k <;> decide
  exact ⟨hstep,
    chunkStartsFuel_fuel_irrel _ _ hstep fuel content.length 0 (by omega) (by omega)⟩

/-- C6 witness: the summarizer profile has a positive step and on a
2-character input any fuel of at least 2 computes the terminated loop. -/
theorem createChunks_registry_terminates_witness :
    (str "ab").length ≤ 7 ∧
    0 < (API_TOKEN_LIMITS APIKey.summarizer).chunkSize
        - (API_TOKEN_LIMITS APIKey.summarizer).overlapSize ∧
    chunkStartsFuel ((API_TOKEN_LIMITS APIKey.summarizer).chunkSize
        - (API_TOKEN_LIMITS APIKey.summarizer).overlapSize) (str "ab").length 0 7 =
      chunkStarts ((API_TOKEN_LIMITS APIKey.summarizer).chunkSize
        - (API_TOKEN_LIMITS APIKey.summarizer).overlapSize) (str "ab").length := by
  have h := createChunks_registry_terminates APIKey.summarizer (str "ab") 7 (by decide)
  exact ⟨by decide, h.1, h.2⟩

/-- C7 counterexample: with the capability object present and the host
reporting `'downloadable'`, the proofreader adapter does not attempt the
model call — it returns the `API_NOT_READY` failure purely because the
re-checked status is not `'available'`. -/
theorem adapterPreamble_not_ready_counterexample :
    adapterPreamble (str "Proofreader") true true (str "downloadable") =
      AdapterStep.fail (str "API_NOT_READY")
        (str "Proofreader" ++ str " is " ++ str "downloadable"
          ++ str ". Please wait for model to be ready.") ∧
    adapterPreamble (str "Proofreader") true true (str "downloadable")
      ≠ AdapterStep.callModel := by
  decide

/-- C7 (amended): the capability adapters split into two families after
re-checking the capability's current availability status.  The summarize
and generate (write) adapters attempt the model call regardless of the
reported status — they do not return an error merely because the status is
not `'available'`, trusting the attempt over a possibly stale or
conservative status report, as the original claim says.  But the proofread,
translate and rewrite adapters attempt the call only when the reported
status is exactly `'available'`; for every other reported status they
return the `API_NOT_READY` failure without attempting the call (the
counterexample). -/
theorem adapterPreamble_gate (apiLabel availability : List Char) :
    attemptAnywayPreamble apiLabel true true availability = AdapterStep.callModel ∧
    adapterPreamble apiLabel true true availability =
      (if availability = str "available" then AdapterStep.callModel
       else AdapterStep.fail (str "API_NOT_READY")
         (apiLabel ++ str " is " ++ availability
           ++ str ". Please wait for model to be ready.")) := by
  constructor
  · simp [attemptAnywayPreamble]
  · rw [adapterPreamble]
    by_cases h : availability = str "available"
    · simp [h]
    · simp [h]

/-- C8: triggering a download when the re-checked availability is
`'unavailable'` returns failure regardless of the user-activation state;
when it is `'available'` it returns success as a no-op with an
informational message, regardless of the user-activation state; and in the
remaining (transitional) states an absent user activation produces the
`USER_ACTIVATION_REQUIRED` failure code. -/
theorem downloadSpecificAPI_gating (apiName : List Char) (h : DownloadHost)
    (hwin : h.windowDefined = true) (hapi : h.apiPresent = true)
    (hav : h.hasAvailability = true) :
    (h.availabilityResult = Except.ok (str "unavailable") →
      downloadSpecificAPI apiName h =
        { success := false, code := some (str "API_UNAVAILABLE"),
          message := some (apiName ++ str " API is not available on this device") }) ∧
    (h.availabilityResult = Except.ok (str "available") →
      downloadSpecificAPI apiName h =
        { success := true,
          statusData := some (apiName ++ str " model is already available") }) ∧
    (∀ s, h.availabilityResult = Except.ok s → s ≠ str "available" →
      s ≠ str "unavailable" → h.userActive = false →
      downloadSpecificAPI apiName h =
        { success := false, code := some (str "USER_ACTIVATION_REQUIRED"),
          message := some (str "User activation required to download model. Please click a button or interact with the page.") }) := by
  refine ⟨?_, ?_, ?_⟩
  · intro hs
    rw [downloadSpecificAPI]
    simp [hwin, hapi, hav, hs]
    decide
  · intro hs
    rw [downloadSpecificAPI]
    simp [hwin, hapi, hav, hs]
  · intro s hs hs1 hs2 huser
    rw [downloadSpecificAPI]
    simp [hwin, hapi, hav, hs, hs1, hs2, huser]

/-- C8 witness: a `'downloadable'` Writer capability without user
activation yields the activation-required failure, and the same host with
status `'unavailable'` or `'available'` yields the status-determined
outcome regardless of activation. -/
theorem downloadSpecificAPI_gating_witness :
    downloadSpecificAPI (str "Writer")
        ⟨true, true, true, Except.ok (str "downloadable"), false, Except.ok ()⟩ =
      { success := false, code := some (str "USER_ACTIVATION_REQUIRED"),
        message := some (str "User activation required to download model. Please click a button or interact with the page.") } ∧
    downloadSpecificAPI (str "Writer")
        ⟨true, true, true, Except.ok (str "unavailable"), false, Except.ok ()⟩ =
      { success := false, code := some (str "API_UNAVAILABLE"),
        message := some (str "Writer" ++ str " API is not available on this device") } ∧
    downloadSpecificAPI (str "Writer")
        ⟨true, true, true, Except.ok (str "available"), false, Except.ok ()⟩ =
      { success := true,
        statusData := some (str "Writer" ++ str " model is already available") } :=
  ⟨(downloadSpecificAPI_gating (str "Writer") _ rfl rfl rfl).2.2 (str "downloadable")
      rfl (by decide) (by decide) rfl,
   (downloadSpecificAPI_gating (str "Writer") _ rfl rfl rfl).1 rfl,
   (downloadSpecificAPI_gating (str "Writer") _ rfl rfl rfl).2.1 rfl⟩

/-- C9 counterexample: when the host's `availability()` resolves to the
arbitrary string `'banana'`, `checkApiAvailability` returns `'banana'`
verbatim — a value outside the five defined enum values.  The `as` cast in
the source performs no runtime validation. -/
theorem checkApiAvailability_passthrough_counterexample :
    checkApiAvailability true true (Except.ok (str "banana")) = str "banana" ∧
    str "banana" ∉ fiveStatuses := by
  decide

/-- C9 (amended): `checkApiAvailability` returns the host's string
verbatim when the call resolves, and `'unavailable'` when the capability
object or its availability method is missing or the call rejects; hence its
result lies in the five defined enum values whenever every string the host
may return does — but an arbitrary host string is passed through unchanged
(see the counterexample). -/
theorem checkApiAvailability_closure (apiPresent hasMethod : Bool)
    (resp : Except (List Char) (List Char))
    (hresp : ∀ s, resp = Except.ok s → s ∈ fiveStatuses) :
    checkApiAvailability apiPresent hasMethod resp ∈ fiveStatuses := by
  by_cases hp : (apiPresent && hasMethod) = true
  · cases resp with
    | ok s =>
      have heq : checkApiAvailability apiPresent hasMethod (Except.ok s) = s := by
        simp [checkApiAvailability, hp]
      rw [heq]
      exact hresp s rfl
    | error e =>
      have heq : checkApiAvailability apiPresent hasMethod (Except.error e)
          = str "unavailable" := by
        simp [checkApiAvailability, hp]
      rw [heq]
      decide
  · simp only [Bool.not_eq_true] at hp
    have heq : checkApiAvailability apiPresent hasMethod resp = str "unavailable" := by
      cases resp <;> simp [checkApiAvailability, hp]
    rw [heq]
    decide

/-- C9 witness: a host response of `'downloading'` is within the enum and
the normalized status is within the enum. -/
theorem checkApiAvailability_closure_witness :
    checkApiAvailability true true (Except.ok (str "downloading")) ∈ fiveStatuses :=
  checkApiAvailability_closure true true (Except.ok (str "downloading"))
    (fun s hs => by
      injection hs with h
      rw [← h]
      decide)
